import Mathlib

/-!
Shallow embedding of `lib/modules/kss-parser.js` (sc5-styleguide fork).

The embedding models:
* the comparator sort used by `KssNodeSorter.prototype.sort` (`likeKssNode`,
  `getWeight`, the weight map built in the constructor),
* the numeric reference assignment pass
  (`convertKssReferenceString2Number`),
* the block/file/pipeline promise structure (`processBlock`, `processFile`,
  `parseKssSections`), with the external collaborators (`kss.parse` after
  `jsonSections`, `kss-splitter.getBlocks`, `kss-sanitize-params`,
  `kss-additional-params`) passed in as function parameters,
* a small store (heap) model used to express the "deep clone, never mutate
  the caller's sections" behaviour of the `KssNodeSorter` constructor.

JavaScript strings are modelled by `String`; `\s` of the regexes is modelled
by the usual JS whitespace class (ASCII whitespace plus NBSP/BOM/line and
paragraph separators); `toLowerCase` is modelled on the ASCII range, and
string comparison (`<`, `>`) by the code-point order on `List Char`, which
agrees with the UTF-16 code-unit order used by JS on the Basic Multilingual
Plane.  JS numbers arising here are array counters and parsed digit strings,
modelled by `Nat` (no overflow is reachable for realistic references).
-/

/-- JS `\s` character class (the members relevant to JSON/KSS text). -/
def isJsSpace (c : Char) : Bool :=
  c = ' ' || c = '\t' || c = '\n' || c = '\r' ||
  c = Char.ofNat 11 || c = Char.ofNat 12 || c = Char.ofNat 160 ||
  c = Char.ofNat 0x1680 || (Char.ofNat 0x2000 ≤ c && c ≤ Char.ofNat 0x200a) ||
  c = Char.ofNat 0x2028 || c = Char.ofNat 0x2029 || c = Char.ofNat 0x202f ||
  c = Char.ofNat 0x205f || c = Char.ofNat 0x3000 || c = Char.ofNat 0xfeff

/-- JS `\d` character class. -/
def isDigitCh (c : Char) : Bool :=
  '0' ≤ c && c ≤ '9'

/-- Decimal digit character, as produced by JS `Number.prototype.toString`. -/
def digitChar (n : Nat) : Char :=
  if n = 0 then '0' else if n = 1 then '1' else if n = 2 then '2'
  else if n = 3 then '3' else if n = 4 then '4' else if n = 5 then '5'
  else if n = 6 then '6' else if n = 7 then '7' else if n = 8 then '8'
  else '9'

/-- Fuelled decimal printer (the fuel is only a structural-recursion device;
`natRepr` supplies enough fuel for it never to run out). -/
def natReprFuel : Nat → Nat → List Char → List Char
  | 0, _, acc => acc
  | fuel + 1, n, acc =>
    if n < 10 then digitChar (n % 10) :: acc
    else natReprFuel fuel (n / 10) (digitChar (n % 10) :: acc)

/-- Decimal representation of a natural number, as JS string conversion
produces for the auto-increment counters. -/
def natRepr (n : Nat) : String :=
  String.mk (natReprFuel (n + 1) n [])

/-- Numeric value of a digit string (models JS numeric coercion of a string
matching `^\d+$`, as in `refsA[i] - refsB[i]`). -/
def digitsToNat (s : String) : Nat :=
  s.data.foldl (fun a c => 10 * a + (c.toNat - 48)) 0

/-- ASCII model of JS `String.prototype.toLowerCase` on one character. -/
def jsToLowerChar (c : Char) : Char :=
  if 'A' ≤ c ∧ c ≤ 'Z' then Char.ofNat (c.toNat + 32) else c

/-- ASCII model of JS `String.prototype.toLowerCase`. -/
def jsToLower (s : String) : String :=
  String.mk (s.data.map jsToLowerChar)

/-- JS `Array.prototype.join('.')`. -/
def joinDot : List String → String
  | [] => ""
  | [s] => s
  | s :: rest => s ++ "." ++ joinDot rest

/-- Splitter for `String.prototype.split('.')` (no limit), on char lists. -/
def splitDotL : List Char → List (List Char)
  | [] => [[]]
  | c :: rest =>
    match splitDotL rest with
    | [] => [[]]
    | h :: t => if c = '.' then [] :: h :: t else (c :: h) :: t

/-- JS `ref.split('.')`. -/
def splitDot (s : String) : List String :=
  (splitDotL s.data).map String.mk

/-- Prepend a char to the first chunk of a split result. -/
def consChunk (c : Char) : List (List Char) → List (List Char)
  | [] => [[c]]
  | h :: t => (c :: h) :: t

/-- Fuelled splitter for the comparator's `split(/(?:\.|\s\-\s)/)`: chunks
are separated either by a period or by exactly
⟨whitespace, dash, whitespace⟩. -/
def chunksFuel : Nat → List Char → List (List Char)
  | 0, l => [l]
  | fuel + 1, l =>
    match l with
    | [] => [[]]
    | c :: rest =>
      if c = '.' then [] :: chunksFuel fuel rest
      else
        match rest with
        | d :: e :: rest2 =>
          if isJsSpace c ∧ d = '-' ∧ isJsSpace e then [] :: chunksFuel fuel rest2
          else consChunk c (chunksFuel fuel rest)
        | _ => consChunk c (chunksFuel fuel rest)

/-- Chunks of a reference as split by `likeKssNode` (on the already
lower-cased reference). -/
def splitKssChunks (s : String) : List String :=
  (chunksFuel (s.data.length + 1) s.data).map String.mk

/-- Fuelled scanner for `replace(/\s+\-\s+/g, '.')`.  A match at the current
position requires the whole whitespace run to be followed by a dash and at
least one further whitespace character (the greedy `\s+` backtracks to
nothing shorter, because every shorter split leaves a whitespace where the
dash is required). -/
def replFuel : Nat → List Char → List Char
  | 0, l => l
  | fuel + 1, l =>
    match l with
    | [] => []
    | c :: rest =>
      if isJsSpace c then
        match List.dropWhile isJsSpace rest with
        | '-' :: r2 =>
          match r2 with
          | e :: _ =>
            if isJsSpace e then '.' :: replFuel fuel (List.dropWhile isJsSpace r2)
            else c :: replFuel fuel rest
          | [] => c :: replFuel fuel rest
        | _ => c :: replFuel fuel rest
      else c :: replFuel fuel rest

/-- JS `ref.replace(/\s+\-\s+/g, '.')`. -/
def replaceWsDashWs (s : String) : String :=
  String.mk (replFuel (s.data.length + 1) s.data)

/-- The normalised key used for the weight map:
`reference.toLowerCase().replace(/\s+\-\s+/g, '.')`. -/
def normalizeRef (r : String) : String :=
  replaceWsDashWs (jsToLower r)

/-- Lexicographic code-point comparison on char lists (JS `<`/`>` on
strings; identical to UTF-16 code-unit order on the BMP). -/
def charsLt : List Char → List Char → Bool
  | [], [] => false
  | [], _ :: _ => true
  | _ :: _, [] => false
  | a :: as, b :: bs =>
    if a.toNat < b.toNat then true
    else if b.toNat < a.toNat then false
    else charsLt as bs

/-- JS string comparison `a < b`. -/
def jsStrLt (a b : String) : Bool :=
  charsLt a.data b.data

/-- JS `chunk.match(/^\d+$/)`. -/
def isAllDigits (s : String) : Bool :=
  !s.data.isEmpty && s.data.all isDigitCh

/-- JS `/^[\d\.\-]+$/.test(ref)`: nonempty and made of digits, periods and
dashes only. -/
def isNumDotDash (s : String) : Bool :=
  !s.data.isEmpty && s.data.all (fun c => isDigitCh c || c = '.' || c = '-')

/-- JSON shape of a KSS modifier (`jsonModifiers`). -/
structure KssModifier where
  id : Nat
  name : String
  description : String
  className : String
  markup : Option String := none
deriving DecidableEq

/-- The SC5 section record (`jsonSections` output, enriched by the pipeline).
The `lang` field models the JS property spelled s-y-n-t-a-x. -/
structure KssSection where
  header : String
  description : String := ""
  reference : String
  weight : Int := 0
  modifiers : List KssModifier := []
  deprecated : Bool := false
  experimental : Bool := false
  markup : Option String := none
  css : Option String := none
  stringReference : Option String := none
  file : Option String := none
  lang : String := ""
deriving DecidableEq

/-- The weight map is a JS object keyed by normalised reference; we keep the
insertion list, a later entry for the same key overriding earlier ones. -/
abbrev WeightMap := List (String × Int)

/-- JS object lookup with `|| 0` (absent keys - and a stored falsy 0 - give 0). -/
def wmLookup (wm : WeightMap) (k : String) : Int :=
  match wm.reverse.find? (fun p => p.1 == k) with
  | some p => p.2
  | none => 0

/-- The map `initWeightMap` from the `KssNodeSorter` constructor. -/
def initWeightMap (sections : List KssSection) : WeightMap :=
  sections.map (fun s => (normalizeRef s.reference, s.weight))

/-- Weight lookup `getWeight(reference, index)`: normalise, truncate to `index + 1` chunks
(`split('.', index + 1).join('.')`) and look the key up, defaulting to 0. -/
def getWeight (wm : WeightMap) (reference : String) (index : Nat) : Int :=
  wmLookup wm (joinDot ((splitDot (normalizeRef reference)).take (index + 1)))

/-- The chunk the comparator sees at index `i` ("" both for an absent index
and for an empty chunk; both are falsy in JS, and the two cases are only
distinguished after both have been ruled out). -/
def chunkAtL (refs : List String) (i : Nat) : String :=
  refs.getD i ""

/-- Body of the `for` loop of `likeKssNode`; `fuel` counts the remaining
iterations (`fuel + i = l` throughout the run started by `likeKssNode`). -/
def likeLoop (wm : WeightMap) (aRef bRef : String) (refsA refsB : List String) :
    Nat → Nat → Int
  | 0, _ => 0
  | fuel + 1, i =>
    let ca := chunkAtL refsA i
    let cb := chunkAtL refsB i
    if ca ≠ "" ∧ cb ≠ "" then
      if ca ≠ cb then
        let weightA := getWeight wm aRef i
        let weightB := getWeight wm bRef i
        if weightA ≠ weightB then weightA - weightB
        else if isAllDigits ca ∧ isAllDigits cb then
          (digitsToNat ca : Int) - (digitsToNat cb : Int)
        else if jsStrLt cb ca then 1 else -1
      else likeLoop wm aRef bRef refsA refsB fuel (i + 1)
    else if ca ≠ "" then 1 else -1

/-- The sort comparator `likeKssNode(a, b)` of `KssNodeSorter.prototype.sort`. -/
def likeKssNode (wm : WeightMap) (a b : KssSection) : Int :=
  let refsA := splitKssChunks (jsToLower a.reference)
  let refsB := splitKssChunks (jsToLower b.reference)
  likeLoop wm a.reference b.reference refsA refsB (max refsA.length refsB.length) 0

/-- Stable insertion: the new element goes after every element it does not
strictly precede (ES2019 `Array.prototype.sort` is stable). -/
def stableInsert (cmp : α → α → Int) (x : α) : List α → List α
  | [] => [x]
  | y :: ys => if cmp x y < 0 then x :: y :: ys else y :: stableInsert cmp x ys

/-- Stable comparator sort modelling `Array.prototype.sort(cmp)`. -/
def stableSort (cmp : α → α → Int) (l : List α) : List α :=
  l.foldl (fun acc x => stableInsert cmp x acc) []

/-- Errors that can settle the pipeline (`gutil.PluginError` from the sorter,
a kss parse failure rejecting a block, a splitter failure). -/
inductive PipeErr where
  | collision (msg : String)
  | blockParse (msg : String)
  | splitter (msg : String)
deriving DecidableEq

/-- State threaded by `convertKssReferenceString2Number`'s loop. -/
structure ConvState where
  previousRef : List String
  previousSection : Option KssSection
  autoIncrement : List Nat
deriving DecidableEq

/-- Initial state: `previousRef = []`, `previousSection = {}`,
`autoIncrement = [0]`. -/
def initConvState : ConvState :=
  ⟨[], none, [0]⟩

/-- The `quote` helper from the source. -/
def quoteStr (s : String) : String :=
  "\"" ++ s ++ "\""

/-- The `incrementIndex` loop: length of the common prefix of the previous
and current chunk lists (capped by both lengths). -/
def matchLen : List String → List String → Nat
  | a :: as, b :: bs => if a = b then matchLen as bs + 1 else 0
  | _, _ => 0

/-- The error thrown when `incrementIndex` is not below the auto-increment
length (an unset JS property prints as `undefined`; unreachable here because
the first iteration always increments). -/
def collisionMessage (prev : Option KssSection) (cur : KssSection) : String :=
  "Two sections defined with same reference " ++
    ((prev.map (fun p => p.reference)).getD "undefined") ++ ": " ++
    quoteStr ((prev.map (fun p => p.header)).getD "undefined") ++ " and " ++
    quoteStr cur.header

/-- One iteration of `convertKssReferenceString2Number`'s loop over the
sorted sections (the `previousRef.join('.') != ref.join('.') || true` guard
in the source is a tautology, so the increment logic always runs). -/
def convStep (st : ConvState) (s : KssSection) :
    Except PipeErr (KssSection × ConvState) :=
  let ref := splitDot (replaceWsDashWs s.reference)
  let incrementIndex := matchLen st.previousRef ref
  if incrementIndex < st.autoIncrement.length then
    let bumped :=
      st.autoIncrement.set incrementIndex (st.autoIncrement.getD incrementIndex 0 + 1)
    let trimmed := bumped.take (incrementIndex + 1)
    let ai := trimmed ++ List.replicate (ref.length - trimmed.length) 1
    let s' :=
      if isNumDotDash s.reference then s
      else { s with stringReference := some s.reference
                    reference := joinDot (ai.map natRepr) }
    .ok (s', ⟨ref, some s', ai⟩)
  else
    .error (.collision (collisionMessage st.previousSection s))

/-- The pass `convertKssReferenceString2Number`: the loop over all (sorted) sections,
stopping with the thrown error of the first bad iteration. -/
def convertKssReferenceString2Number :
    List KssSection → ConvState → Except PipeErr (List KssSection)
  | [], _ => .ok []
  | s :: rest, st =>
    match convStep st s with
    | .error e => .error e
    | .ok p =>
      match convertKssReferenceString2Number rest p.2 with
      | .error e => .error e
      | .ok out => .ok (p.1 :: out)

/-- Instrumented version of the conversion loop that also records the state
after each iteration (used only in proofs; `convertKssReferenceString2Number`
is its first projection). -/
def convTrace :
    List KssSection → ConvState → Except PipeErr (List (KssSection × ConvState))
  | [], _ => .ok []
  | s :: rest, st =>
    match convStep st s with
    | .error e => .error e
    | .ok p =>
      match convTrace rest p.2 with
      | .error e => .error e
      | .ok tr => .ok (p :: tr)

/-- Model of `new KssNodeSorter(sections); kns.sort(); kns.sections` as a value-level
function: build the weight map, sort stably with `likeKssNode`, then run the
numeric assignment pass.  (The deep clone made by the constructor is the
identity on values; the store model below captures the aliasing aspect.) -/
def kssNodeSorterRun (sections : List KssSection) : Except PipeErr (List KssSection) :=
  let wm := initWeightMap sections
  let sorted := stableSort (likeKssNode wm) sections
  convertKssReferenceString2Number sorted initConvState

/-- Helper `trimLinebreaks`: strip leading and trailing CR/LF characters. -/
def trimLinebreaks (s : String) : String :=
  String.mk (((s.data.dropWhile (fun c => c = '\r' || c = '\n')).reverse.dropWhile
    (fun c => c = '\r' || c = '\n')).reverse)

/-- The console warning issued when one block parses to several sections. -/
def multipleKssWarning : String :=
  "Warning: KSS splitter returned more than 1 KSS block. Styleguide might not be properly generated."

/-- A raw block from `kss-splitter.getBlocks`: KSS comment text plus the
adjacent code. -/
structure KssBlock where
  kss : String
  code : String
deriving DecidableEq

/-- Model of `processBlock`: sanitize, parse with the external KSS parser (modelled by
the `kssParse` parameter, the composition of `kss.parse` and `jsonSections`),
merge the additional params onto the first section, attach the trimmed block
code as `css` - and resolve the WHOLE parsed array, warning (not failing)
when it has more than one section.  The first component of the result lists
the emitted console warnings. -/
def processBlock (sanitize : String → String)
    (kssParse : String → Except PipeErr (List KssSection))
    (additionalParams : String → KssSection → KssSection)
    (block : KssBlock) : Except PipeErr (List String × List KssSection) :=
  match kssParse (sanitize block.kss) with
  | .error e => .error e
  | .ok [] => .ok ([], [])
  | .ok (first :: rest) =>
    let warnings := if rest.isEmpty then [] else [multipleKssWarning]
    let first1 := additionalParams block.kss first
    let blockStyles := trimLinebreaks block.code
    let first2 := if blockStyles ≠ "" then { first1 with css := some blockStyles } else first1
    .ok (warnings, first2 :: rest)

/-- How a JS promise can end up for an observer: fulfilled, rejected, or
never settled at all. -/
inductive Settle (α : Type) where
  | resolved (value : α)
  | rejected (err : PipeErr)
  | pending
deriving DecidableEq

/-- Does this block result reject? -/
def blockRejects (r : Except PipeErr (List String × List KssSection)) : Bool :=
  match r with
  | .error _ => true
  | .ok _ => false

/-- Model of `processFile`: empty contents resolve to `[]`; a synchronous splitter
failure rejects; otherwise every block is processed and the per-block section
lists are concatenated, tagged with the file path and the file's language.
`Q.all(blockPromises).then(resolve ∘ merge)` carries NO rejection handler in
the source, so when any block rejects the rejection is swallowed and the
promise returned by `processFile` never settles: that case is `pending`. -/
def processFile (sanitize : String → String)
    (kssParse : String → Except PipeErr (List KssSection))
    (additionalParams : String → KssSection → KssSection)
    (getBlocks : String → String → Except PipeErr (List KssBlock))
    (contents filePath lang : String) : Settle (List KssSection) :=
  if contents = "" then .resolved []
  else
    match getBlocks contents lang with
    | .error e => .rejected e
    | .ok blocks =>
      let results := blocks.map (processBlock sanitize kssParse additionalParams)
      if results.any blockRejects then .pending
      else
        .resolved (results.foldl (fun memo r =>
          match r with
          | .ok pr => memo ++ pr.2.map (fun s => { s with lang := lang, file := some filePath })
          | .error _ => memo) [])

/-- Model of `path.extname(filePath).substring(1)` for ordinary file names. -/
def extnameOf (p : String) : String :=
  if (p.splitOn ".").length ≤ 1 then "" else (p.splitOn ".").getLastD ""

/-- Project a rejection out of a file outcome. -/
def settleErr (o : Settle (List KssSection)) : Option PipeErr :=
  match o with
  | .rejected e => some e
  | _ => none

/-- Is the outcome pending forever? -/
def settlePending (o : Settle (List KssSection)) : Bool :=
  match o with
  | .pending => true
  | _ => false

/-- Sections of a fulfilled outcome. -/
def settleSections (o : Settle (List KssSection)) : List KssSection :=
  match o with
  | .resolved secs => secs
  | _ => []

/-- Model of `parseKssSections`: fan out over the files, join with `Q.all` (first
rejection wins; if nothing rejects but some file never settles, the join -
and hence the returned promise - never settles), merge the per-file sections
in file order, and sort/resolve them, converting a sorter throw into a
rejection. -/
def parseKssSections (sanitize : String → String)
    (kssParse : String → Except PipeErr (List KssSection))
    (additionalParams : String → KssSection → KssSection)
    (getBlocks : String → String → Except PipeErr (List KssBlock))
    (files : List (String × String)) : Settle (List KssSection) :=
  let outcomes := files.map (fun f =>
    processFile sanitize kssParse additionalParams getBlocks f.2 f.1 (extnameOf f.1))
  match outcomes.findSome? settleErr with
  | some e => .rejected e
  | none =>
    if outcomes.any settlePending then .pending
    else
      let sections := outcomes.foldl (fun acc o => acc ++ settleSections o) []
      match kssNodeSorterRun sections with
      | .ok sorted => .resolved sorted
      | .error e => .rejected e

/-- Placeholder section used for out-of-range store reads (never reached on
valid indices). -/
def dummySection : KssSection :=
  { header := "", reference := "" }

/-- Numeric-assignment pass acting on a store through indices, mirroring the
in-place mutation `section.reference = ...` of the source. -/
def convertStore : List Nat → ConvState → List KssSection →
    List KssSection × Except PipeErr Unit
  | [], _, store => (store, .ok ())
  | i :: rest, st, store =>
    match convStep st (store.getD i dummySection) with
    | .error _e => (store, .error _e)
    | .ok p => convertStore rest p.2 (store.set i p.1)

/-- Store-level model of `new KssNodeSorter(sections)` followed by `sort()`:
the caller's array holds indices into a store of section records; the
constructor appends a deep clone of the listed records (`_.clone(sections,
true)`) and the sorter then sorts and mutates only the clone's indices. -/
def kssNodeSorterStore (store : List KssSection) (callerIdxs : List Nat) :
    List KssSection × Except PipeErr Unit :=
  let cloneIdxs := List.range' store.length callerIdxs.length
  let store1 := store ++ callerIdxs.map (fun i => store.getD i dummySection)
  let wm := initWeightMap (cloneIdxs.map (fun i => store1.getD i dummySection))
  let sorted := stableSort
    (fun i j => likeKssNode wm (store1.getD i dummySection) (store1.getD j dummySection))
    cloneIdxs
  convertStore sorted initConvState store1

/-- Strict lexicographic order on counter paths. -/
def lexLtB : List Nat → List Nat → Bool
  | [], [] => false
  | [], _ :: _ => true
  | _ :: _, [] => false
  | a :: as, b :: bs => a < b || (a = b && lexLtB as bs)

/-- Invariant carried by the conversion loop's state: the auto-increment
entries are positive, except in the initial state `[0]`. -/
def posOrInit (st : ConvState) : Prop :=
  (∀ x ∈ st.autoIncrement, 0 < x) ∨ st.autoIncrement = [0]

deriving instance DecidableEq for Except

/-- Section-record builder used by the concrete scenarios. -/
def mkSec (h r : String) (w : Int) : KssSection :=
  { header := h, reference := r, weight := w }

/-- The three-section scenario of claim C1 (spec §8), in merge order. -/
def c1Input : List KssSection :=
  [mkSec "Forms - Buttons" "Forms - Buttons" 0,
   mkSec "Forms" "Forms" 0,
   mkSec "Forms - Inputs" "Forms - Inputs" 0]

/-- A collection on which resolution succeeds but produces colliding and
dashed references: a numeric "3", a string "Foo" and a dashed "1-2". -/
def c2cexInput : List KssSection :=
  [mkSec "h3" "3" 0, mkSec "hFoo" "Foo" 0, mkSec "h12" "1-2" 0]

/-- What the resolver actually returns on `c2cexInput`. -/
def c2cexOutput : List KssSection :=
  [mkSec "h12" "1-2" 0, mkSec "h3" "3" 0,
   { mkSec "hFoo" "Foo" 0 with reference := "3", stringReference := some "Foo" }]

/-- One-section input used to witness the amended invariant of C2. -/
def c2wIn : List KssSection :=
  [mkSec "h" "Button" 0]

/-- Resolver output on `c2wIn`. -/
def c2wOut : List KssSection :=
  [{ mkSec "h" "Button" 0 with reference := "1", stringReference := some "Button" }]

/-- First section yielded by the two-section block of claim C3. -/
def c3s1 : KssSection := mkSec "one" "A" 0

/-- Second section yielded by the two-section block of claim C3. -/
def c3s2 : KssSection := mkSec "two" "B" 0

/-- A parser behaviour producing two sections from one block. -/
def c3parse : String → Except PipeErr (List KssSection) :=
  fun _ => .ok [c3s1, c3s2]

/-- The raw block fed to `processBlock` in the C3 scenarios. -/
def c3block : KssBlock := ⟨"k", ""⟩

/-- A section declaring the literal reference "3.1" (claim C4). -/
def c4sec (h : String) (w : Int) : KssSection := mkSec h "3.1" w

/-- The section parsed out of the well-formed block of claim C5. -/
def c5sec : KssSection := mkSec "ok" "Button" 0

/-- Parser behaviour for C5: the block with text "x" fails structured
parsing, every other block parses to a single section. -/
def c5parse : String → Except PipeErr (List KssSection) :=
  fun s => if s = "x" then .error (.blockParse "kss parse failure") else .ok [c5sec]

/-- Splitter behaviour for C5: one block per file holding the contents. -/
def c5getBlocks : String → String → Except PipeErr (List KssBlock) :=
  fun c _ => .ok [⟨c, ""⟩]

/-- Two files, the first containing the malformed block. -/
def c5files : List (String × String) := [("a.css", "x"), ("b.css", "y")]

/-- A section whose reference is the empty string (claim C6 edge case). -/
def c6eSec : KssSection := mkSec "empty" "" 0

/-- A section with an ordinary string reference (C6 witness). -/
def c6wSec : KssSection := mkSec "btn" "Button" 0

/-- Sibling "Base - Colors" with weight 1 (claim C7). -/
def c7colors : KssSection := mkSec "Colors" "Base - Colors" 1

/-- Sibling "Base - Typography" with weight 0 (claim C7). -/
def c7typo : KssSection := mkSec "Typography" "Base - Typography" 0

/-- Weight map of the C7 sibling pair. -/
def c7wm : WeightMap := initWeightMap [c7colors, c7typo]

/-- Section referenced "2.10" (claim C8). -/
def c8s210 : KssSection := mkSec "Deep" "2.10" 0

/-- Section referenced "2.9" (claim C8). -/
def c8s29 : KssSection := mkSec "Shallow" "2.9" 0

/-- Weight map of the C8 pair. -/
def c8wm : WeightMap := initWeightMap [c8s210, c8s29]

/-- Record stored in the caller's collection for the C9 witness. -/
def c9sec : KssSection := mkSec "h" "Base - Colors" 0

/-- Section referenced "Forms" (claim C10). -/
def c10a : KssSection := mkSec "hA" "Forms" 0

/-- Section referenced "FORMS", differing only in case (claim C10). -/
def c10b : KssSection := mkSec "hB" "FORMS" 0

/-- Weight map of the C10 pair. -/
def c10wm : WeightMap := initWeightMap [c10a, c10b]

/-- Result of one conversion step on the empty-reference section. -/
def c6ePair : KssSection × ConvState :=
  ({ c6eSec with reference := "1", stringReference := some "" },
   ⟨[""], some { c6eSec with reference := "1", stringReference := some "" }, [1]⟩)

/-- Result of one conversion step on the "Button" section. -/
def c6wPair : KssSection × ConvState :=
  ({ c6wSec with reference := "1", stringReference := some "Button" },
   ⟨["Button"], some { c6wSec with reference := "1", stringReference := some "Button" }, [1]⟩)

set_option maxRecDepth 40000

/-- C1: on the input with references "Forms - Buttons", "Forms",
"Forms - Inputs" (weights 0), the claim says resolution succeeds and
assigns 1 / 1.1 / 1.2.  The code instead aborts: after "Forms" is numbered,
"Forms - Buttons" reaches `incrementIndex = autoIncrement.length` and the
pass throws the "same reference" error (where upstream kss-node would have
extended the auto-increment path with 1), naming the already-rewritten
reference "1" and both headers. -/
theorem c1_forms_scenario_throws :
    kssNodeSorterRun c1Input =
      .error (.collision
        "Two sections defined with same reference 1: \"Forms\" and \"Forms - Buttons\"") := by
  decide

/-- C5: with a mapping of two files in which one block of the first file
fails structured parsing, the claim says `parseKssSections` rejects with
that error and returns no sections.  In the code the rejected block promise
is only consumed by `Q.all(blockPromises).then(resolve ∘ merge)` - which has
no rejection handler - inside `processFile`, so the file promise never
settles and the whole pipeline stays pending forever instead of rejecting. -/
theorem c5_failed_block_pipeline_pends :
    parseKssSections id c5parse (fun _ s => s) c5getBlocks c5files = Settle.pending ∧
    c5parse "x" = .error (.blockParse "kss parse failure") := by
  constructor
  · decide
  · decide

/-- C10: for the sections referenced "Forms" and "FORMS" the comparator
lower-cases both chunk lists and reports a tie (so the pair keeps merge
order under the stable sort), while the numeric-assignment pass compares the
raw previous and current chunk paths case-sensitively, sees a divergence at
depth 0 and increments the top-level counter, numbering them 1 and 2
instead of treating them as the same chain. -/
theorem c10_case_sensitivity_split :
    likeKssNode c10wm c10a c10b = 0 ∧
    stableSort (likeKssNode c10wm) [c10a, c10b] = [c10a, c10b] ∧
    kssNodeSorterRun [c10a, c10b] =
      .ok [{ c10a with reference := "1", stringReference := some "Forms" },
           { c10b with reference := "2", stringReference := some "FORMS" }] := by
  refine ⟨by decide, by decide, by decide⟩

/-- C2 counterexample: on `c2cexInput` resolution succeeds, yet the output
references are "1-2", "3", "3" - neither pairwise distinct (the passthrough
numeric "3" collides with the auto-increment number assigned to "Foo") nor
all dot-delimited chains of positive integers (the passthrough "1-2" keeps
its dash). -/
theorem c2_counterexample :
    kssNodeSorterRun c2cexInput = .ok c2cexOutput ∧
    c2cexOutput.map (fun s => s.reference) = ["1-2", "3", "3"] ∧
    ¬ List.Pairwise (fun a b : KssSection => a.reference ≠ b.reference) c2cexOutput := by
  refine ⟨by decide, by decide, by decide⟩

/-- C3 counterexample: a block whose structured parse yields the two
sections `c3s1, c3s2` produces a result holding BOTH sections (only the
first would remain if the block-building step discarded the others). -/
theorem c3_counterexample :
    processBlock id c3parse (fun _ s => s) c3block =
      .ok ([multipleKssWarning], [c3s1, c3s2]) ∧
    ¬ [c3s1, c3s2].length = 1 := by
  refine ⟨by decide, by decide⟩

/-- C3 amended: when the parser yields more than one section from a block,
`processBlock` still succeeds (no error), reports the condition by the
single console warning, and keeps EVERY parsed section - the first enriched
with the additional params and the trimmed block code, the rest untouched. -/
theorem c3_amended_keeps_all_sections (sanitize : String → String)
    (kssParse : String → Except PipeErr (List KssSection))
    (additionalParams : String → KssSection → KssSection)
    (block : KssBlock) (first next : KssSection) (rest : List KssSection)
    (h : kssParse (sanitize block.kss) = .ok (first :: next :: rest)) :
    processBlock sanitize kssParse additionalParams block =
      .ok ([multipleKssWarning],
        (if trimLinebreaks block.code ≠ "" then
          { additionalParams block.kss first with css := some (trimLinebreaks block.code) }
         else additionalParams block.kss first) :: next :: rest) := by
  unfold processBlock
  rw [h]
  rfl

/-- Witness for the amended C3 theorem at the concrete two-section block. -/
theorem c3_amended_witness :
    processBlock id c3parse (fun _ s => s) c3block =
      .ok ([multipleKssWarning], [c3s1, c3s2]) :=
  c3_amended_keeps_all_sections id c3parse (fun _ s => s) c3block c3s1 c3s2 [] (by decide)

/-- C6 amended: in a successful conversion step, a section whose original
reference passes the `^[\d.-]+$` test is forwarded exactly unchanged (so no
`stringReference` appears), and a section whose reference fails the test -
because it contains a foreign character OR because it is empty - has its
reference replaced by the dot-joined auto-increment path of the updated
state and its `stringReference` set to the original text. -/
theorem c6_numeric_passthrough_rewrite (st : ConvState) (s : KssSection)
    (p : KssSection × ConvState) (h : convStep st s = .ok p) :
    (isNumDotDash s.reference = true → p.1 = s) ∧
    (isNumDotDash s.reference = false →
      p.1.reference = joinDot (p.2.autoIncrement.map natRepr) ∧
      p.1.stringReference = some s.reference) := by
  unfold convStep at h
  by_cases hnum : isNumDotDash s.reference = true
  · refine ⟨fun _ => ?_, fun hfalse => by rw [hnum] at hfalse; cases hfalse⟩
    simp only [hnum, if_true] at h
    split at h
    · cases h
      rfl
    · cases h
  · have hnum' : isNumDotDash s.reference = false := by
      cases hval : isNumDotDash s.reference
      · rfl
      · exact absurd hval hnum
    refine ⟨fun htrue => absurd htrue hnum, fun _ => ?_⟩
    simp only [hnum', Bool.false_eq_true, if_false] at h
    split at h
    · cases h
      exact ⟨rfl, rfl⟩
    · cases h

/-- Witness for the amended C6 theorem: the step on the "Button" section
rewrites the reference to the dot-joined path and stores the original. -/
theorem c6_numeric_passthrough_rewrite_witness :
    c6wPair.1.reference = joinDot (c6wPair.2.autoIncrement.map natRepr) ∧
    c6wPair.1.stringReference = some c6wSec.reference :=
  (c6_numeric_passthrough_rewrite initConvState c6wSec c6wPair (by decide)).2 (by decide)

/-- C6 counterexample: the empty reference contains no character other than
digits, dots, or dashes (vacuously), so the claim says it is left unchanged
with no `stringReference`; the code's `^[\d.-]+$` test fails on the empty
string, so the section is rewritten and gains `stringReference = some ""`. -/
theorem c6_counterexample :
    convStep initConvState c6eSec = .ok c6ePair ∧
    (∀ c ∈ c6eSec.reference.data, isDigitCh c = true ∨ c = '.' ∨ c = '-') ∧
    c6ePair.1.reference ≠ c6eSec.reference ∧
    c6ePair.1.stringReference = some c6eSec.reference := by
  refine ⟨by decide, by decide, by decide, by decide⟩

/-- C4: for any two sections both declaring the literal reference "3.1"
(any headers, any weights), resolution aborts with the collision error; the
error text contains both headers and the shared reference text "3.1", and no
resolved collection is returned. -/
theorem c4_duplicate_numeric_reference_collides (h1 h2 : String) (w1 w2 : Int) :
    ∃ msg, kssNodeSorterRun [c4sec h1 w1, c4sec h2 w2] = .error (.collision msg) ∧
      List.IsInfix h1.data msg.data ∧
      List.IsInfix h2.data msg.data ∧
      List.IsInfix ("3.1" : String).data msg.data := by
  refine ⟨collisionMessage (some (c4sec h1 w1)) (c4sec h2 w2), rfl, ?_, ?_, ?_⟩
  · refine ⟨("Two sections defined with same reference " : String).data ++
        ("3.1" : String).data ++ (": " : String).data ++ ("\"" : String).data,
      ("\"" : String).data ++ (" and " : String).data ++ ("\"" : String).data ++
        h2.data ++ ("\"" : String).data, ?_⟩
    simp [collisionMessage, quoteStr, c4sec, mkSec]
  · refine ⟨("Two sections defined with same reference " : String).data ++
        ("3.1" : String).data ++ (": " : String).data ++ ("\"" : String).data ++
        h1.data ++ ("\"" : String).data ++ (" and " : String).data ++ ("\"" : String).data,
      ("\"" : String).data, ?_⟩
    simp [collisionMessage, quoteStr, c4sec, mkSec]
  · refine ⟨("Two sections defined with same reference " : String).data,
      (": " : String).data ++ ("\"" : String).data ++ h1.data ++ ("\"" : String).data ++
        (" and " : String).data ++ ("\"" : String).data ++ h2.data ++ ("\"" : String).data, ?_⟩
    simp [collisionMessage, quoteStr, c4sec, mkSec]

/-- A nonempty chunk can only be read inside the list. -/
theorem chunkAtL_ne_imp_lt (refs : List String) (i : Nat)
    (h : chunkAtL refs i ≠ "") : i < refs.length := by
  by_contra hge
  push_neg at hge
  unfold chunkAtL at h
  rw [List.getD_eq_getElem?_getD, List.getElem?_eq_none hge] at h
  exact h rfl

/-- The comparator loop walks past every index where both chunks are present,
nonempty and equal. -/
theorem likeLoop_skip_equal_chunks (wm : WeightMap) (aRef bRef : String)
    (refsA refsB : List String) (i0 : Nat)
    (hpre : ∀ j, j < i0 → chunkAtL refsA j ≠ "" ∧ chunkAtL refsA j = chunkAtL refsB j) :
    ∀ fuel i, i ≤ i0 →
      likeLoop wm aRef bRef refsA refsB fuel i =
      likeLoop wm aRef bRef refsA refsB (fuel - (i0 - i)) i0 := by
  intro fuel
  induction fuel with
  | zero =>
    intro i _
    have h0 : 0 - (i0 - i) = 0 := by omega
    rw [h0]
    rfl
  | succ fuel ih =>
    intro i hle
    rcases Nat.eq_or_lt_of_le hle with heq | hlt
    · subst heq
      have h0 : fuel + 1 - (i - i) = fuel + 1 := by omega
      rw [h0]
    · have hj := hpre i hlt
      have hbne : chunkAtL refsB i ≠ "" := by rw [← hj.2]; exact hj.1
      have hstep : likeLoop wm aRef bRef refsA refsB (fuel + 1) i =
          likeLoop wm aRef bRef refsA refsB fuel (i + 1) := by
        simp only [likeLoop]
        rw [if_pos ⟨hj.1, hbne⟩, if_neg (by rw [hj.2]; exact fun hc => hc rfl)]
      rw [hstep, ih (i + 1) (by omega)]
      congr 1
      omega

/-- Unfolding the comparator loop at an index where both chunks are nonempty
and different. -/
theorem likeLoop_at_diverge (wm : WeightMap) (aRef bRef : String)
    (refsA refsB : List String) (fuel i : Nat)
    (hfa : chunkAtL refsA i ≠ "") (hfb : chunkAtL refsB i ≠ "")
    (hne : chunkAtL refsA i ≠ chunkAtL refsB i) :
    likeLoop wm aRef bRef refsA refsB (fuel + 1) i =
      (if getWeight wm aRef i ≠ getWeight wm bRef i then
        getWeight wm aRef i - getWeight wm bRef i
      else if isAllDigits (chunkAtL refsA i) ∧ isAllDigits (chunkAtL refsB i) then
        (digitsToNat (chunkAtL refsA i) : Int) - (digitsToNat (chunkAtL refsB i) : Int)
      else if jsStrLt (chunkAtL refsB i) (chunkAtL refsA i) then 1 else -1) := by
  simp only [likeLoop]
  rw [if_pos ⟨hfa, hfb⟩, if_pos hne]

/-- Reduction of the comparator to its loop at the divergence index. -/
theorem likeKssNode_at_diverge (wm : WeightMap) (a b : KssSection) (i : Nat)
    (hpre : ∀ j, j < i →
      chunkAtL (splitKssChunks (jsToLower a.reference)) j ≠ "" ∧
      chunkAtL (splitKssChunks (jsToLower a.reference)) j =
        chunkAtL (splitKssChunks (jsToLower b.reference)) j)
    (hfa : chunkAtL (splitKssChunks (jsToLower a.reference)) i ≠ "")
    (hfb : chunkAtL (splitKssChunks (jsToLower b.reference)) i ≠ "")
    (hne : chunkAtL (splitKssChunks (jsToLower a.reference)) i ≠
      chunkAtL (splitKssChunks (jsToLower b.reference)) i) :
    likeKssNode wm a b =
      (if getWeight wm a.reference i ≠ getWeight wm b.reference i then
        getWeight wm a.reference i - getWeight wm b.reference i
      else if isAllDigits (chunkAtL (splitKssChunks (jsToLower a.reference)) i) ∧
          isAllDigits (chunkAtL (splitKssChunks (jsToLower b.reference)) i) then
        (digitsToNat (chunkAtL (splitKssChunks (jsToLower a.reference)) i) : Int) -
          (digitsToNat (chunkAtL (splitKssChunks (jsToLower b.reference)) i) : Int)
      else if jsStrLt (chunkAtL (splitKssChunks (jsToLower b.reference)) i)
          (chunkAtL (splitKssChunks (jsToLower a.reference)) i) then 1 else -1) := by
  have hlt : i < (splitKssChunks (jsToLower a.reference)).length :=
    chunkAtL_ne_imp_lt _ i hfa
  have hmax : i < max (splitKssChunks (jsToLower a.reference)).length
      (splitKssChunks (jsToLower b.reference)).length := by
    omega
  unfold likeKssNode
  rw [likeLoop_skip_equal_chunks wm a.reference b.reference _ _ i hpre _ 0 (by omega)]
  obtain ⟨f, hf⟩ : ∃ f, max (splitKssChunks (jsToLower a.reference)).length
      (splitKssChunks (jsToLower b.reference)).length - (i - 0) = f + 1 := by
    refine ⟨max (splitKssChunks (jsToLower a.reference)).length
      (splitKssChunks (jsToLower b.reference)).length - i - 1, ?_⟩
    omega
  rw [hf, likeLoop_at_diverge wm a.reference b.reference _ _ f i hfa hfb hne]

/-- C7: whenever the chunk lists of two sections first diverge at depth `i`
(every earlier chunk pair being present, nonempty and equal) and the weights
looked up for the two references truncated to that depth differ, the
comparator returns `weight(A) - weight(B)`, so the lower-weight section
sorts first.  In particular "Base - Colors" (weight 1) versus
"Base - Typography" (weight 0) compares positive, and the stable sort puts
the weight-0 sibling first despite alphabetical order. -/
theorem c7_weight_precedence :
    (∀ (wm : WeightMap) (a b : KssSection) (i : Nat),
      (∀ j, j < i →
        chunkAtL (splitKssChunks (jsToLower a.reference)) j ≠ "" ∧
        chunkAtL (splitKssChunks (jsToLower a.reference)) j =
          chunkAtL (splitKssChunks (jsToLower b.reference)) j) →
      chunkAtL (splitKssChunks (jsToLower a.reference)) i ≠ "" →
      chunkAtL (splitKssChunks (jsToLower b.reference)) i ≠ "" →
      chunkAtL (splitKssChunks (jsToLower a.reference)) i ≠
        chunkAtL (splitKssChunks (jsToLower b.reference)) i →
      getWeight wm a.reference i ≠ getWeight wm b.reference i →
      likeKssNode wm a b = getWeight wm a.reference i - getWeight wm b.reference i) ∧
    likeKssNode c7wm c7colors c7typo = 1 ∧
    stableSort (likeKssNode c7wm) [c7colors, c7typo] = [c7typo, c7colors] := by
  refine ⟨?_, by decide, by decide⟩
  intro wm a b i hpre hfa hfb hne hw
  rw [likeKssNode_at_diverge wm a b i hpre hfa hfb hne, if_pos hw]

/-- Witness for C7 at the "Base - Colors"/"Base - Typography" pair, whose
weights at depth 1 are 1 and 0. -/
theorem c7_weight_precedence_witness :
    likeKssNode c7wm c7colors c7typo =
      getWeight c7wm c7colors.reference 1 - getWeight c7wm c7typo.reference 1 :=
  c7_weight_precedence.1 c7wm c7colors c7typo 1
    (fun j hj => by
      have hj0 : j = 0 := by omega
      subst hj0
      exact ⟨by decide, by decide⟩)
    (by decide) (by decide) (by decide) (by decide)

/-- C8: when the first divergence is between two purely numeric chunks and
the truncated-reference weights agree, the comparator subtracts the chunks'
numeric values (not their lexicographic order); in particular "2.10"
compares greater than "2.9" and sorts after it. -/
theorem c8_numeric_chunk_order :
    (∀ (wm : WeightMap) (a b : KssSection) (i : Nat),
      (∀ j, j < i →
        chunkAtL (splitKssChunks (jsToLower a.reference)) j ≠ "" ∧
        chunkAtL (splitKssChunks (jsToLower a.reference)) j =
          chunkAtL (splitKssChunks (jsToLower b.reference)) j) →
      chunkAtL (splitKssChunks (jsToLower a.reference)) i ≠ "" →
      chunkAtL (splitKssChunks (jsToLower b.reference)) i ≠ "" →
      chunkAtL (splitKssChunks (jsToLower a.reference)) i ≠
        chunkAtL (splitKssChunks (jsToLower b.reference)) i →
      getWeight wm a.reference i = getWeight wm b.reference i →
      isAllDigits (chunkAtL (splitKssChunks (jsToLower a.reference)) i) = true →
      isAllDigits (chunkAtL (splitKssChunks (jsToLower b.reference)) i) = true →
      likeKssNode wm a b =
        (digitsToNat (chunkAtL (splitKssChunks (jsToLower a.reference)) i) : Int) -
          (digitsToNat (chunkAtL (splitKssChunks (jsToLower b.reference)) i) : Int)) ∧
    likeKssNode c8wm c8s210 c8s29 = 1 ∧
    stableSort (likeKssNode c8wm) [c8s210, c8s29] = [c8s29, c8s210] := by
  refine ⟨?_, by decide, by decide⟩
  intro wm a b i hpre hfa hfb hne hweq hda hdb
  rw [likeKssNode_at_diverge wm a b i hpre hfa hfb hne,
    if_neg (by rw [hweq]; exact fun hc => hc rfl), if_pos ⟨hda, hdb⟩]

/-- Witness for C8 at the "2.10"/"2.9" pair (values 10 and 9 at depth 1). -/
theorem c8_numeric_chunk_order_witness :
    likeKssNode c8wm c8s210 c8s29 =
      (digitsToNat (chunkAtL (splitKssChunks (jsToLower c8s210.reference)) 1) : Int) -
        (digitsToNat (chunkAtL (splitKssChunks (jsToLower c8s29.reference)) 1) : Int) :=
  c8_numeric_chunk_order.1 c8wm c8s210 c8s29 1
    (fun j hj => by
      have hj0 : j = 0 := by omega
      subst hj0
      exact ⟨by decide, by decide⟩)
    (by decide) (by decide) (by decide) (by decide) (by decide) (by decide)

/-- Membership in a stable insertion. -/
theorem mem_stableInsert {α : Type} (cmp : α → α → Int) (x y : α) (l : List α)
    (h : y ∈ stableInsert cmp x l) : y = x ∨ y ∈ l := by
  induction l with
  | nil => simpa [stableInsert] using h
  | cons z zs ih =>
    unfold stableInsert at h
    split at h
    · simpa using h
    · rcases List.mem_cons.mp h with h1 | h2
      · right
        exact List.mem_cons.mpr (Or.inl h1)
      · rcases ih h2 with h3 | h4
        · left
          exact h3
        · right
          exact List.mem_cons.mpr (Or.inr h4)

/-- Membership after folding stable insertions. -/
theorem mem_stableSort_aux {α : Type} (cmp : α → α → Int) :
    ∀ (l acc : List α) (y : α),
      y ∈ List.foldl (fun acc x => stableInsert cmp x acc) acc l → y ∈ acc ∨ y ∈ l := by
  intro l
  induction l with
  | nil =>
    intro acc y h
    exact Or.inl (by simpa using h)
  | cons x xs ih =>
    intro acc y h
    simp only [List.foldl_cons] at h
    rcases ih _ y h with h1 | h2
    · rcases mem_stableInsert cmp x y acc h1 with h3 | h4
      · right
        simp [h3]
      · left
        exact h4
    · right
      exact List.mem_cons.mpr (Or.inr h2)

/-- The stable sort introduces no new elements. -/
theorem mem_stableSort {α : Type} (cmp : α → α → Int) (l : List α) (y : α)
    (h : y ∈ stableSort cmp l) : y ∈ l := by
  rcases mem_stableSort_aux cmp l [] y h with h1 | h2
  · cases h1
  · exact h2

/-- The store-level conversion pass writes only at the listed indices. -/
theorem convertStore_frame (idxs : List Nat) (st : ConvState)
    (store : List KssSection) (j : Nat) (h : j ∉ idxs) :
    ((convertStore idxs st store).1)[j]? = store[j]? := by
  induction idxs generalizing st store with
  | nil => rfl
  | cons i rest ih =>
    have hji : i ≠ j := fun he => h (he ▸ List.mem_cons_self i rest)
    have hjr : j ∉ rest := fun hm => h (List.mem_cons.mpr (Or.inr hm))
    unfold convertStore
    split
    · rfl
    · rw [ih _ _ hjr]
      exact List.getElem?_set_ne hji

/-- C9: running the sorter never touches any record of the caller's store
prefix - the constructor's deep clone lives at fresh indices, the sort
permutes only those, and the conversion pass writes only to them.  Every
field of every section owned by the caller is left unchanged. -/
theorem c9_resolver_preserves_caller_sections (store : List KssSection)
    (callerIdxs : List Nat) (j : Nat) (hj : j < store.length) :
    ((kssNodeSorterStore store callerIdxs).1)[j]? = store[j]? := by
  simp only [kssNodeSorterStore]
  rw [convertStore_frame]
  · exact List.getElem?_append_left hj
  · intro hmem
    have hm2 := mem_stableSort _ _ _ hmem
    rw [List.mem_range'_1] at hm2
    omega

/-- Witness for C9 on a one-record store whose only index is cloned,
sorted and rewritten. -/
theorem c9_resolver_preserves_caller_sections_witness :
    0 < [c9sec].length ∧ ((kssNodeSorterStore [c9sec] [0]).1)[0]? = [c9sec][0]? :=
  ⟨by decide, c9_resolver_preserves_caller_sections [c9sec] [0] 0 (by decide)⟩

/-- Every produced digit character really is a digit. -/
theorem digitChar_isDigit (k : Nat) : isDigitCh (digitChar k) = true := by
  unfold digitChar
  repeat' split
  all_goals decide

/-- Code of the digit character for values below ten. -/
theorem digitChar_toNat (k : Nat) (h : k < 10) : (digitChar k).toNat = 48 + k := by
  interval_cases k <;> decide

/-- The printer's accumulator is a plain suffix. -/
theorem natReprFuel_acc : ∀ (fuel n : Nat) (acc : List Char),
    natReprFuel fuel n acc = natReprFuel fuel n [] ++ acc := by
  intro fuel
  induction fuel with
  | zero => intro n acc; rfl
  | succ fuel ih =>
    intro n acc
    unfold natReprFuel
    by_cases h10 : n < 10
    · rw [if_pos h10, if_pos h10]
      rfl
    · rw [if_neg h10, if_neg h10,
        ih (n / 10) (digitChar (n % 10) :: acc), ih (n / 10) [digitChar (n % 10)],
        List.append_assoc]
      rfl

/-- Any sufficient fuel prints the same digits. -/
theorem natReprFuel_irrel : ∀ (n f1 f2 : Nat) (acc : List Char), n < f1 → n < f2 →
    natReprFuel f1 n acc = natReprFuel f2 n acc := by
  intro n
  induction n using Nat.strong_induction_on with
  | _ n ih =>
    intro f1 f2 acc h1 h2
    cases f1 with
    | zero => omega
    | succ fa =>
      cases f2 with
      | zero => omega
      | succ fb =>
        unfold natReprFuel
        by_cases h10 : n < 10
        · rw [if_pos h10, if_pos h10]
        · rw [if_neg h10, if_neg h10]
          have hdiv : n / 10 < n := Nat.div_lt_self (by omega) (by omega)
          exact ih (n / 10) hdiv fa fb _ (by omega) (by omega)

/-- The digit list of a natural number is nonempty and all digits. -/
theorem natRepr_spec (n : Nat) :
    (natRepr n).data ≠ [] ∧ ∀ c ∈ (natRepr n).data, isDigitCh c = true := by
  unfold natRepr
  show natReprFuel (n + 1) n [] ≠ [] ∧ ∀ c ∈ natReprFuel (n + 1) n [], isDigitCh c = true
  induction n using Nat.strong_induction_on with
  | _ n ih =>
    by_cases h10 : n < 10
    · have he : natReprFuel (n + 1) n [] = [digitChar (n % 10)] := by
        unfold natReprFuel
        rw [if_pos h10]
      rw [he]
      refine ⟨by simp, ?_⟩
      intro c hc
      rw [List.mem_singleton] at hc
      rw [hc]
      exact digitChar_isDigit (n % 10)
    · have hdiv : n / 10 < n := Nat.div_lt_self (by omega) (by omega)
      have he : natReprFuel (n + 1) n [] =
          natReprFuel (n / 10 + 1) (n / 10) [] ++ [digitChar (n % 10)] := by
        conv_lhs => unfold natReprFuel
        rw [if_neg h10,
          natReprFuel_irrel (n / 10) n (n / 10 + 1) _ (by omega) (by omega),
          natReprFuel_acc]
      rw [he]
      obtain ⟨hne, hdig⟩ := ih (n / 10) hdiv
      refine ⟨by simp [hne], ?_⟩
      intro c hc
      rcases List.mem_append.mp hc with hc1 | hc2
      · exact hdig c hc1
      · rw [List.mem_singleton] at hc2
        rw [hc2]
        exact digitChar_isDigit (n % 10)

/-- Value of the printed digit list under the left fold that models numeric
coercion, for an arbitrary initial accumulator. -/
theorem natReprFuel_val (n : Nat) : ∀ (a : Nat),
    (natReprFuel (n + 1) n []).foldl (fun x c => 10 * x + (c.toNat - 48)) a =
      a * 10 ^ (natReprFuel (n + 1) n []).length + n := by
  induction n using Nat.strong_induction_on with
  | _ n ih =>
    intro a
    by_cases h10 : n < 10
    · have he : natReprFuel (n + 1) n [] = [digitChar (n % 10)] := by
        unfold natReprFuel
        rw [if_pos h10]
      rw [he]
      simp only [List.foldl_cons, List.foldl_nil, List.length_singleton, pow_one]
      rw [digitChar_toNat (n % 10) (by omega)]
      have hm : n % 10 = n := Nat.mod_eq_of_lt h10
      omega
    · have hdiv : n / 10 < n := Nat.div_lt_self (by omega) (by omega)
      have he : natReprFuel (n + 1) n [] =
          natReprFuel (n / 10 + 1) (n / 10) [] ++ [digitChar (n % 10)] := by
        conv_lhs => unfold natReprFuel
        rw [if_neg h10,
          natReprFuel_irrel (n / 10) n (n / 10 + 1) _ (by omega) (by omega),
          natReprFuel_acc]
      rw [he, List.foldl_append, ih (n / 10) hdiv a]
      simp only [List.foldl_cons, List.foldl_nil, List.length_append,
        List.length_singleton]
      rw [digitChar_toNat (n % 10) (by omega)]
      have hmod : 48 + n % 10 - 48 = n % 10 := by omega
      rw [hmod]
      calc 10 * (a * 10 ^ (natReprFuel (n / 10 + 1) (n / 10) []).length + n / 10) + n % 10
          = a * (10 ^ (natReprFuel (n / 10 + 1) (n / 10) []).length * 10) +
            (10 * (n / 10) + n % 10) := by ring
        _ = a * 10 ^ ((natReprFuel (n / 10 + 1) (n / 10) []).length + 1) + n := by
            rw [Nat.div_add_mod, pow_succ]

/-- Round trip: parsing the printed decimal gives the number back. -/
theorem natRepr_val (n : Nat) : digitsToNat (natRepr n) = n := by
  unfold digitsToNat natRepr
  have := natReprFuel_val n 0
  simpa using this

/-- The decimal printer is injective. -/
theorem natRepr_inj {m n : Nat} (h : natRepr m = natRepr n) : m = n := by
  have hm := natRepr_val m
  rw [h, natRepr_val n] at hm
  omega

/-- No dot occurs in a printed number. -/
theorem natRepr_no_dot (n : Nat) : '.' ∉ (natRepr n).data := by
  intro hmem
  have := (natRepr_spec n).2 '.' hmem
  exact absurd this (by decide)


/-- Characters of the dot separator literal. -/
theorem data_dot : ("." : String).data = ['.'] := rfl

/-- Strings with equal character data are equal. -/
theorem stringDataInj {s t : String} (h : s.data = t.data) : s = t :=
  congrArg String.mk h

/-- Character data of a two-or-more join. -/
theorem joinDot_cons_cons_data (a b : String) (rest : List String) :
    (joinDot (a :: b :: rest)).data = a.data ++ '.' :: (joinDot (b :: rest)).data := by
  show (a ++ "." ++ joinDot (b :: rest)).data = _
  rw [String.data_append, String.data_append, data_dot, List.append_assoc]
  rfl

/-- Splitting at the first dot is unambiguous. -/
theorem firstDot_split : ∀ (u1 u2 v1 v2 : List Char),
    '.' ∉ u1 → '.' ∉ u2 → u1 ++ '.' :: v1 = u2 ++ '.' :: v2 → u1 = u2 ∧ v1 = v2 := by
  intro u1
  induction u1 with
  | nil =>
    intro u2 v1 v2 _ h2 heq
    cases u2 with
    | nil => simpa using heq
    | cons d u2' =>
      exfalso
      simp only [List.nil_append, List.cons_append, List.cons.injEq] at heq
      exact h2 (by rw [heq.1]; exact List.mem_cons_self d u2')
  | cons c u1' ih =>
    intro u2 v1 v2 h1 h2 heq
    cases u2 with
    | nil =>
      exfalso
      simp only [List.nil_append, List.cons_append, List.cons.injEq] at heq
      exact h1 (by rw [← heq.1]; exact List.mem_cons_self c u1')
    | cons d u2' =>
      simp only [List.cons_append, List.cons.injEq] at heq
      obtain ⟨hc, ht⟩ := heq
      have h1' : '.' ∉ u1' := fun hm => h1 (List.mem_cons.mpr (Or.inr hm))
      have h2' : '.' ∉ u2' := fun hm => h2 (List.mem_cons.mpr (Or.inr hm))
      obtain ⟨e1, e2⟩ := ih u2' v1 v2 h1' h2' ht
      exact ⟨by rw [hc, e1], e2⟩

/-- Joining with dots is injective on lists of nonempty dot-free strings. -/
theorem joinDot_inj : ∀ (l1 l2 : List String),
    (∀ s ∈ l1, s.data ≠ [] ∧ '.' ∉ s.data) →
    (∀ s ∈ l2, s.data ≠ [] ∧ '.' ∉ s.data) →
    joinDot l1 = joinDot l2 → l1 = l2 := by
  intro l1
  induction l1 with
  | nil =>
    intro l2 _ h2 heq
    cases l2 with
    | nil => rfl
    | cons b bs =>
      exfalso
      cases bs with
      | nil =>
        have hdata : ("" : String) = b := heq
        exact (h2 b (List.mem_cons_self b [])).1 (by rw [← hdata])
      | cons b2 bs' =>
        have hd : ([] : List Char) = b.data ++ '.' :: (joinDot (b2 :: bs')).data := by
          have h3 := congrArg String.data heq
          rw [joinDot_cons_cons_data] at h3
          exact h3
        have hlen := congrArg List.length hd
        simp [List.length_append] at hlen
        omega
  | cons a as ih =>
    intro l2 h1 h2 heq
    cases as with
    | nil =>
      cases l2 with
      | nil =>
        exfalso
        have hdata : a = ("" : String) := heq
        exact (h1 a (List.mem_cons_self a [])).1 (by rw [hdata])
      | cons b bs =>
        cases bs with
        | nil =>
          show [a] = [b]
          rw [show a = b from heq]
        | cons b2 bs' =>
          exfalso
          have hd : a.data = b.data ++ '.' :: (joinDot (b2 :: bs')).data := by
            have h3 := congrArg String.data heq
            rwa [joinDot_cons_cons_data] at h3
          have : '.' ∈ a.data := by
            rw [hd]
            exact List.mem_append.mpr (Or.inr (List.mem_cons_self _ _))
          exact (h1 a (List.mem_cons_self a [])).2 this
    | cons a2 as' =>
      cases l2 with
      | nil =>
        exfalso
        have hd : a.data ++ '.' :: (joinDot (a2 :: as')).data = ([] : List Char) := by
          have h3 := congrArg String.data heq
          rw [joinDot_cons_cons_data] at h3
          exact h3
        have hlen := congrArg List.length hd
        simp [List.length_append] at hlen
      | cons b bs =>
        cases bs with
        | nil =>
          exfalso
          have hd : a.data ++ '.' :: (joinDot (a2 :: as')).data = b.data := by
            have h3 := congrArg String.data heq
            rwa [joinDot_cons_cons_data] at h3
          have : '.' ∈ b.data := by
            rw [← hd]
            exact List.mem_append.mpr (Or.inr (List.mem_cons_self _ _))
          exact (h2 b (List.mem_cons_self b _)).2 this
        | cons b2 bs' =>
          have hd : a.data ++ '.' :: (joinDot (a2 :: as')).data =
              b.data ++ '.' :: (joinDot (b2 :: bs')).data := by
            have h3 := congrArg String.data heq
            rwa [joinDot_cons_cons_data, joinDot_cons_cons_data] at h3
          obtain ⟨e1, e2⟩ := firstDot_split _ _ _ _
            (h1 a (List.mem_cons_self a _)).2 (h2 b (List.mem_cons_self b _)).2 hd
          have ha : a = b := stringDataInj e1
          have htail : joinDot (a2 :: as') = joinDot (b2 :: bs') := stringDataInj e2
          have h1' : ∀ s ∈ a2 :: as', s.data ≠ [] ∧ '.' ∉ s.data :=
            fun s hm => h1 s (List.mem_cons.mpr (Or.inr hm))
          have h2' : ∀ s ∈ b2 :: bs', s.data ≠ [] ∧ '.' ∉ s.data :=
            fun s hm => h2 s (List.mem_cons.mpr (Or.inr hm))
          rw [ha, ih (b2 :: bs') h1' h2' htail]

/-- The lexicographic order is irreflexive. -/
theorem lexLtB_irrefl : ∀ l : List Nat, lexLtB l l = false := by
  intro l
  induction l with
  | nil => rfl
  | cons a as ih => simp [lexLtB, ih]

/-- The lexicographic order is transitive. -/
theorem lexLtB_trans : ∀ a b c : List Nat,
    lexLtB a b = true → lexLtB b c = true → lexLtB a c = true := by
  intro a
  induction a with
  | nil =>
    intro b c hab hbc
    cases b with
    | nil => cases hab
    | cons y ys =>
      cases c with
      | nil => cases hbc
      | cons z zs => rfl
  | cons x xs ih =>
    intro b c hab hbc
    cases b with
    | nil => cases hab
    | cons y ys =>
      cases c with
      | nil => cases hbc
      | cons z zs =>
        simp only [lexLtB, Bool.or_eq_true, Bool.and_eq_true, decide_eq_true_eq] at hab hbc ⊢
        rcases hab with h1 | ⟨h2, h3⟩ <;> rcases hbc with h4 | ⟨h5, h6⟩
        · left
          omega
        · left
          omega
        · left
          omega
        · right
          exact ⟨by omega, ih ys zs h3 h6⟩

/-- Lexicographically smaller lists are different. -/
theorem lexLtB_ne {a b : List Nat} (h : lexLtB a b = true) : a ≠ b := by
  intro he
  rw [he, lexLtB_irrefl] at h
  cases h

/-- Taking one past a bumped position splits the prefix off. -/
theorem take_set_bump : ∀ (l : List Nat) (k : Nat), k < l.length →
    (l.set k (l.getD k 0 + 1)).take (k + 1) = l.take k ++ [l.getD k 0 + 1] := by
  intro l
  induction l with
  | nil =>
    intro k hk
    simp at hk
  | cons a as ih =>
    intro k hk
    cases k with
    | zero => simp
    | succ k' =>
      simp only [List.getD_cons_succ, List.set_cons_succ, List.take_succ_cons,
        List.cons_append]
      rw [ih k' (by simpa using hk)]

/-- Bumping a counter somewhere inside the path gives a lexicographically
larger path, whatever follows the bumped position. -/
theorem lexLtB_bump : ∀ (l : List Nat) (k : Nat) (rest : List Nat), k < l.length →
    lexLtB l (l.take k ++ (l.getD k 0 + 1) :: rest) = true := by
  intro l
  induction l with
  | nil =>
    intro k rest hk
    simp at hk
  | cons a as ih =>
    intro k rest hk
    cases k with
    | zero =>
      simp only [List.take_zero, List.getD_cons_zero, List.nil_append]
      simp [lexLtB]
    | succ k' =>
      simp only [List.take_succ_cons, List.getD_cons_succ, List.cons_append]
      simp only [lexLtB, Bool.or_eq_true, Bool.and_eq_true, decide_eq_true_eq]
      right
      exact ⟨trivial, ih k' rest (by simpa using hk)⟩

/-- Structure of a successful conversion step: the auto-increment path is the
old one bumped at the common-prefix length `k`, truncated past `k` and padded
with ones; the section is forwarded or rewritten according to the
`^[\d.-]+$` test. -/
theorem convStep_ok_elim {st : ConvState} {s : KssSection}
    {p : KssSection × ConvState} (h : convStep st s = .ok p) :
    ∃ k, k < st.autoIncrement.length ∧
      p.2.autoIncrement = st.autoIncrement.take k ++ (st.autoIncrement.getD k 0 + 1) ::
        List.replicate ((splitDot (replaceWsDashWs s.reference)).length - (k + 1)) 1 ∧
      p.1 = (if isNumDotDash s.reference then s
        else { s with stringReference := some s.reference,
                      reference := joinDot (p.2.autoIncrement.map natRepr) }) := by
  unfold convStep at h
  dsimp only at h
  split at h
  next hk =>
    injection h with h'
    subst h'
    refine ⟨matchLen st.previousRef (splitDot (replaceWsDashWs s.reference)), hk, ?_, ?_⟩
    · show (st.autoIncrement.set _ _).take _ ++ _ = _
      rw [take_set_bump st.autoIncrement _ hk]
      have hl : (st.autoIncrement.take
          (matchLen st.previousRef (splitDot (replaceWsDashWs s.reference))) ++
          [st.autoIncrement.getD
            (matchLen st.previousRef (splitDot (replaceWsDashWs s.reference))) 0 + 1]).length =
          matchLen st.previousRef (splitDot (replaceWsDashWs s.reference)) + 1 := by
        simp [List.length_take]
        omega
      rw [hl]
      simp [List.append_assoc]
    · rfl
  next =>
    exact Except.noConfusion h

/-- Each successful step strictly increases the auto-increment path in the
lexicographic order. -/
theorem convStep_lex {st : ConvState} {s : KssSection} {p : KssSection × ConvState}
    (h : convStep st s = .ok p) :
    lexLtB st.autoIncrement p.2.autoIncrement = true := by
  obtain ⟨k, hk, hai, _⟩ := convStep_ok_elim h
  rw [hai]
  exact lexLtB_bump st.autoIncrement k _ hk

/-- Each successful step leaves a nonempty, all-positive auto-increment path
(starting from a positive path or from the initial `[0]`). -/
theorem convStep_pos {st : ConvState} {s : KssSection} {p : KssSection × ConvState}
    (h : convStep st s = .ok p) (hst : posOrInit st) :
    (∀ x ∈ p.2.autoIncrement, 0 < x) ∧ p.2.autoIncrement ≠ [] := by
  obtain ⟨k, hk, hai, _⟩ := convStep_ok_elim h
  rw [hai]
  constructor
  · intro x hx
    rcases List.mem_append.mp hx with hx1 | hx2
    · rcases hst with hpos | hinit
      · exact hpos x (List.take_subset k st.autoIncrement hx1)
      · have hk0 : k = 0 := by
          rw [hinit] at hk
          simpa using hk
        rw [hk0, hinit] at hx1
        simp at hx1
    · rcases List.mem_cons.mp hx2 with he | hr
      · omega
      · have := List.eq_of_mem_replicate hr
        omega
  · simp

/-- Positivity (or initiality) of the state is preserved by a step. -/
theorem convStep_posOrInit {st : ConvState} {s : KssSection}
    {p : KssSection × ConvState} (h : convStep st s = .ok p) (hst : posOrInit st) :
    posOrInit p.2 :=
  Or.inl (convStep_pos h hst).1

/-- If the incoming section has no `stringReference`, an outgoing
`stringReference` pins the outgoing reference to the dot-joined path. -/
theorem convStep_rewrite {st : ConvState} {s : KssSection}
    {p : KssSection × ConvState} (h : convStep st s = .ok p)
    (hs : s.stringReference = none) :
    p.1.stringReference.isSome → p.1.reference = joinDot (p.2.autoIncrement.map natRepr) := by
  obtain ⟨k, hk, hai, hp1⟩ := convStep_ok_elim h
  intro hsome
  by_cases hnum : isNumDotDash s.reference = true
  · rw [hp1] at hsome
    rw [if_pos hnum] at hsome
    rw [hs] at hsome
    cases hsome
  · have hnum' : isNumDotDash s.reference = false := by
      cases hval : isNumDotDash s.reference
      · rfl
      · exact absurd hval hnum
    rw [hp1, if_neg (by rw [hnum']; exact fun hc => Bool.noConfusion hc)]

/-- The conversion pass is the section projection of the instrumented trace. -/
theorem convert_eq_trace : ∀ (l : List KssSection) (st : ConvState),
    convertKssReferenceString2Number l st =
      (convTrace l st).map (fun tr => tr.map Prod.fst) := by
  intro l
  induction l with
  | nil =>
    intro st
    rfl
  | cons s rest ih =>
    intro st
    unfold convertKssReferenceString2Number convTrace
    cases hstep : convStep st s with
    | error e => rfl
    | ok p =>
      dsimp only
      rw [ih p.2]
      cases htr : convTrace rest p.2 with
      | error e => rfl
      | ok tr => rfl

/-- Invariants carried along a successful trace: every state after the start
is lexicographically above the start, positive and nonempty; rewritten
sections carry the dot-join of their own state's path; and the states are
pairwise lexicographically increasing along the trace. -/
theorem convTrace_invariants : ∀ (l : List KssSection) (st : ConvState)
    (tr : List (KssSection × ConvState)),
    posOrInit st → (∀ s ∈ l, s.stringReference = none) → convTrace l st = .ok tr →
    (∀ p ∈ tr, lexLtB st.autoIncrement p.2.autoIncrement = true ∧
      (∀ x ∈ p.2.autoIncrement, 0 < x) ∧ p.2.autoIncrement ≠ [] ∧
      (p.1.stringReference.isSome → p.1.reference = joinDot (p.2.autoIncrement.map natRepr))) ∧
    List.Pairwise (fun p q : KssSection × ConvState =>
      lexLtB p.2.autoIncrement q.2.autoIncrement = true) tr := by
  intro l
  induction l with
  | nil =>
    intro st tr _ _ htr
    have : tr = [] := by
      injection htr with h'
      exact h'.symm
    subst this
    exact ⟨fun p hp => absurd hp (List.not_mem_nil p), List.Pairwise.nil⟩
  | cons s rest ih =>
    intro st tr hst hnone htr
    unfold convTrace at htr
    cases hstep : convStep st s with
    | error e =>
      rw [hstep] at htr
      exact Except.noConfusion htr
    | ok p =>
      rw [hstep] at htr
      dsimp only at htr
      cases htr2 : convTrace rest p.2 with
      | error e =>
        rw [htr2] at htr
        exact Except.noConfusion htr
      | ok tr' =>
        rw [htr2] at htr
        dsimp only at htr
        injection htr with htr'
        subst htr'
        have hstP : posOrInit p.2 := convStep_posOrInit hstep hst
        have hrest : ∀ s' ∈ rest, s'.stringReference = none :=
          fun s' hm => hnone s' (List.mem_cons.mpr (Or.inr hm))
        obtain ⟨hall', hpair'⟩ := ih p.2 tr' hstP hrest htr2
        have hlexhead : lexLtB st.autoIncrement p.2.autoIncrement = true :=
          convStep_lex hstep
        have hposhead := convStep_pos hstep hst
        have hrewhead := convStep_rewrite hstep (hnone s (List.mem_cons_self s rest))
        constructor
        · intro q hq
          rcases List.mem_cons.mp hq with hq1 | hq2
          · subst hq1
            exact ⟨hlexhead, hposhead.1, hposhead.2, hrewhead⟩
          · obtain ⟨hl, hp2, hn, hrw⟩ := hall' q hq2
            exact ⟨lexLtB_trans _ _ _ hlexhead hl, hp2, hn, hrw⟩
        · exact List.Pairwise.cons (fun q hq => (hall' q hq).1) hpair'

/-- C2 amended: when resolution succeeds on a collection whose sections carry
no prior `stringReference` (as all pipeline-built sections do), every output
section that was REWRITTEN (it bears a `stringReference`) has as reference
the dot-join of a nonempty path of positive integers, and the rewritten
references are pairwise distinct.  (Passthrough numeric references are kept
verbatim and may contain dashes or collide - see the counterexample.) -/
theorem c2_rewritten_references_distinct_chains (secs out : List KssSection)
    (hnone : ∀ s ∈ secs, s.stringReference = none)
    (hrun : kssNodeSorterRun secs = .ok out) :
    (∀ s ∈ out, s.stringReference.isSome →
      ∃ path : List Nat, path ≠ [] ∧ (∀ x ∈ path, 0 < x) ∧
        s.reference = joinDot (path.map natRepr)) ∧
    List.Pairwise (fun a b : KssSection =>
      a.stringReference.isSome → b.stringReference.isSome →
        a.reference ≠ b.reference) out := by
  unfold kssNodeSorterRun at hrun
  rw [convert_eq_trace] at hrun
  cases htr : convTrace
      (stableSort (likeKssNode (initWeightMap secs)) secs) initConvState with
  | error e =>
    rw [htr] at hrun
    exact Except.noConfusion hrun
  | ok tr =>
    rw [htr] at hrun
    have hout : out = tr.map Prod.fst := by
      simp only [Except.map] at hrun
      injection hrun with h'
      exact h'.symm
    have hnone' : ∀ s ∈ stableSort (likeKssNode (initWeightMap secs)) secs,
        s.stringReference = none :=
      fun s hm => hnone s (mem_stableSort _ _ _ hm)
    obtain ⟨hall, hpair⟩ :=
      convTrace_invariants _ initConvState tr (Or.inr rfl) hnone' htr
    subst hout
    constructor
    · intro s hs hsome
      obtain ⟨p, hp, hps⟩ := List.mem_map.mp hs
      obtain ⟨_, hpos, hne, hrw⟩ := hall p hp
      refine ⟨p.2.autoIncrement, hne, hpos, ?_⟩
      rw [← hps]
      exact hrw (by rw [hps]; exact hsome)
    · rw [List.pairwise_map]
      refine List.Pairwise.imp_of_mem ?_ hpair
      intro p q hp hq hlex hsp hsq heq
      obtain ⟨_, _, _, hrwp⟩ := hall p hp
      obtain ⟨_, _, _, hrwq⟩ := hall q hq
      have hrefp := hrwp hsp
      have hrefq := hrwq hsq
      rw [hrefp, hrefq] at heq
      have hcomp : ∀ (ai : List Nat), ∀ s' ∈ ai.map natRepr,
          s'.data ≠ [] ∧ '.' ∉ s'.data := by
        intro ai s' hs'
        obtain ⟨n, _, hn⟩ := List.mem_map.mp hs'
        rw [← hn]
        exact ⟨(natRepr_spec n).1, natRepr_no_dot n⟩
      have hmaps := joinDot_inj _ _ (hcomp _) (hcomp _) heq
      have hpaths : p.2.autoIncrement = q.2.autoIncrement :=
        List.map_injective_iff.mpr (fun a b hab => natRepr_inj hab) hmaps
      exact lexLtB_ne hlex hpaths

/-- Witness for the amended C2 theorem on a one-section collection whose
string reference "Button" is rewritten to "1". -/
theorem c2_rewritten_references_distinct_chains_witness :
    List.Pairwise (fun a b : KssSection =>
      a.stringReference.isSome → b.stringReference.isSome →
        a.reference ≠ b.reference) c2wOut :=
  (c2_rewritten_references_distinct_chains c2wIn c2wOut (by decide) (by decide)).2
